import Mathlib

/-!
Shallow embedding of the spatial interpolation core of the repository
(file `src/pixel_planet/spatial_utils.py`).

Modelling conventions:
* Python floats are modelled by `ℚ` (the claims under study are about
  control flow, ordering, thresholds and exact weighted-average formulas,
  not about rounding of binary floating point).  The IDW `power` argument
  is a float in the source but is only ever used with the integral default
  `2.0`; it is modelled as a natural exponent.
* A Python dict record is modelled by the structure `Rec` whose fields are
  `Option`-valued: `none` means the key is absent from the dict.  Reading
  a key that may be absent (`record['k']`, which raises `KeyError`) is
  modelled in the `Except String` monad via `keyQ` / `keyS`; `record.get`
  with a default is modelled with `Option.getD`.
* `record.copy()` followed by assignment of one key is modelled by a
  structure update.
* Python's `list.sort(key=...)` is a stable sort; it is modelled by
  insertion-sorting the index-annotated list by the lexicographic order
  (distance, original position), which is the standard extensional
  description of a stable sort by a key.
* The haversine distance itself uses transcendental functions and is
  modelled separately over `ℝ` (`haversine_distance` below); the rest of
  the pipeline is parametrised by an abstract distance function `DistFn`,
  which the source instantiates with the haversine distance.
* Warning strings are interpolated f-strings in the source; only their
  identity matters to the spec, so they are modelled by the inductive
  `Warning` (one constructor per distinct message template).
-/

/-- A forecast record: the Python dict flowing through `spatial_utils.py`.
Every field is optional, mirroring key presence in the dict. -/
structure Rec where
  lat : Option ℚ := none
  lon : Option ℚ := none
  forecast_timestamp : Option String := none
  parameter : Option String := none
  distance_km : Option ℚ := none
  forecast_value : Option ℚ := none
  prediction_interval_lower : Option ℚ := none
  prediction_interval_upper : Option ℚ := none
  standard_error : Option ℚ := none
  confidence_level : Option ℚ := none
  interpolation_method : Option String := none
  n_points_used : Option ℚ := none
  distances_km : Option (List ℚ) := none
  forecast_date : Option String := none
  forecast_hour : Option ℚ := none
  day_of_week : Option ℚ := none
  day_name : Option String := none
deriving DecidableEq, Repr

/-- The empty dict `{}` returned by `inverse_distance_weighting` on empty input. -/
def Rec.empty : Rec := {}

/-- An abstract distance function on coordinate pairs; the source
instantiates it with `haversine_distance`. -/
abbrev DistFn := (ℚ × ℚ) → (ℚ × ℚ) → ℚ

/-- Reading a numeric key from a dict: `record['k']` raises `KeyError`
when the key is absent. -/
def keyQ : Option ℚ → Except String ℚ
  | some q => .ok q
  | none => .error "KeyError"

/-- Reading a string key from a dict. -/
def keyS : Option String → Except String String
  | some s => .ok s
  | none => .error "KeyError"

/-- The sort key used by `find_nearest_points`:
`lambda x: x['distance_km']` (the key is always present there). -/
def dk (r : Rec) : ℚ := r.distance_km.getD 0

/-- One step of the distance-annotation loop in `find_nearest_points`:
`record_copy = record.copy(); record_copy['distance_km'] = haversine_distance(...)`. -/
def annotate (dist : DistFn) (t : ℚ × ℚ) (r : Rec) : Except String Rec := do
  let la ← keyQ r.lat
  let lo ← keyQ r.lon
  .ok { r with distance_km := some (dist t (la, lo)) }

/-- Total version of `annotate`, equal to it when `lat` and `lon` are present. -/
def annot0 (dist : DistFn) (t : ℚ × ℚ) (r : Rec) : Rec :=
  { r with distance_km := some (dist t (r.lat.getD 0, r.lon.getD 0)) }

/-- Stable-sort order on position-annotated records: ascending distance,
ties broken by original position.  Sorting by this linear-order key is the
extensional description of Python's stable `sort(key=distance)`. -/
def srel (a b : ℕ × Rec) : Prop :=
  dk a.2 < dk b.2 ∨ (dk a.2 = dk b.2 ∧ a.1 ≤ b.1)

instance : DecidableRel srel := fun a b =>
  decidable_of_iff (dk a.2 < dk b.2 ∨ (dk a.2 = dk b.2 ∧ a.1 ≤ b.1)) Iff.rfl

instance : IsTotal (ℕ × Rec) srel := by
  constructor
  intro a b
  rcases lt_trichotomy (dk a.2) (dk b.2) with h | h | h
  · exact Or.inl (Or.inl h)
  · rcases Nat.le_total a.1 b.1 with h' | h'
    · exact Or.inl (Or.inr ⟨h, h'⟩)
    · exact Or.inr (Or.inr ⟨h.symm, h'⟩)
  · exact Or.inr (Or.inl h)

instance : IsTrans (ℕ × Rec) srel := by
  constructor
  intro a b c hab hbc
  rcases hab with h1 | ⟨h1, h1'⟩ <;> rcases hbc with h2 | ⟨h2, h2'⟩
  · exact Or.inl (h1.trans h2)
  · exact Or.inl (h2 ▸ h1)
  · exact Or.inl (h1 ▸ h2)
  · exact Or.inr ⟨h1.trans h2, h1'.trans h2'⟩

/-- Embedding of `find_nearest_points` (spatial_utils.py, lines 45-86).
Annotates every candidate with its distance to the target, stably sorts by
distance, reports `is_exact` from the closest distance, and truncates to
the first `n` points.  Default `thr` in the source is `0.01` km. -/
def find_nearest_points (dist : DistFn) (t : ℚ × ℚ) (forecast_data : List Rec)
    (n : ℕ) (thr : ℚ) : Except String (List Rec × Bool) :=
  if forecast_data = [] then .ok ([], false)
  else do
    let pts ← forecast_data.mapM (annotate dist t)
    match (List.insertionSort srel pts.enum).map Prod.snd with
    | [] => .error "IndexError"
    | p0 :: ps => do
      let d0 ← keyQ p0.distance_km
      .ok ((p0 :: ps).take n, decide (d0 < thr))

/-- The distance lookup inside the IDW weight loop:
`record.get('distance_km')`, falling back to a fresh haversine computation
when the key is absent. -/
def getDistOf (dist : DistFn) (t : ℚ × ℚ) (r : Rec) : Except String ℚ :=
  match r.distance_km with
  | some d => .ok d
  | none => do
    let la ← keyQ r.lat
    let lo ← keyQ r.lon
    .ok (dist t (la, lo))

/-- The weight loop of `inverse_distance_weighting` (lines 119-137): walks
the candidates in order; a candidate closer than 0.001 km short-circuits
the whole function with that candidate tagged `exact_match`; otherwise
each candidate contributes weight `1 / distance ^ power`. -/
def idwWeights (dist : DistFn) (t : ℚ × ℚ) (power : ℕ) :
    List Rec → Except String (Rec ⊕ List ℚ)
  | [] => .ok (Sum.inr [])
  | r :: rs => do
    let d ← getDistOf dist t r
    if d < 1/1000 then
      .ok (Sum.inl { r with interpolation_method := some "exact_match" })
    else
      match ← idwWeights dist t power rs with
      | Sum.inl r0 => .ok (Sum.inl r0)
      | Sum.inr ws => .ok (Sum.inr (1 / d ^ power :: ws))

/-- Interpolation of one numeric field (lines 159-165): the field is
emitted iff it is present in the first candidate; each candidate
contributes `weight * record.get(field, 0)`. -/
def idwField (ws : List ℚ) (total : ℚ) (cands : List Rec) (f : Rec → Option ℚ) :
    Option ℚ :=
  match cands with
  | [] => none
  | c0 :: _ =>
    match f c0 with
    | some _ => some ((List.zipWith (fun w r => w * (f r).getD 0) ws cands).sum / total)
    | none => none

/-- Embedding of `inverse_distance_weighting` (lines 89-174). -/
def inverse_distance_weighting (dist : DistFn) (tlat tlon : ℚ)
    (nearby_forecasts : List Rec) (power : ℕ) : Except String Rec :=
  match nearby_forecasts with
  | [] => .ok Rec.empty
  | [r] => .ok { r with interpolation_method := some "nearest_point" }
  | r0 :: rest => do
    match ← idwWeights dist (tlat, tlon) power (r0 :: rest) with
    | Sum.inl rc => .ok rc
    | Sum.inr ws => do
      -- total_weight = sum(weights), inlined below as `ws.sum`
      let dists ← (r0 :: rest).mapM (fun r => keyQ r.distance_km)
      .ok { Rec.empty with
        lat := some tlat
        lon := some tlon
        interpolation_method := some "idw"
        n_points_used := some ((r0 :: rest).length : ℚ)
        distances_km := some dists
        forecast_value := idwField ws ws.sum (r0 :: rest) Rec.forecast_value
        prediction_interval_lower :=
          idwField ws ws.sum (r0 :: rest) Rec.prediction_interval_lower
        prediction_interval_upper :=
          idwField ws ws.sum (r0 :: rest) Rec.prediction_interval_upper
        standard_error := idwField ws ws.sum (r0 :: rest) Rec.standard_error
        confidence_level := idwField ws ws.sum (r0 :: rest) Rec.confidence_level
        forecast_timestamp := r0.forecast_timestamp
        parameter := r0.parameter
        forecast_date := r0.forecast_date
        forecast_hour := r0.forecast_hour
        day_of_week := r0.day_of_week
        day_name := r0.day_name }

/-- Confidence tiers (`'high'`/`'medium'`/`'low'`/`'very_low'`, plus
`'none'` for the no-data result). -/
inductive Conf where
  | high
  | medium
  | low
  | very_low
  | cnone
deriving DecidableEq, Repr

/-- The three warning message templates of `interpolate_forecast`
(lines 281-300): the extreme-distance warning, the milder large-distance
warning, and the data-point-spread warning. -/
inductive Warning where
  | extreme
  | large
  | spread
deriving DecidableEq, Repr

/-- The confidence classification chain of `interpolate_forecast`
(lines 263-270), for a finite observed minimum distance. -/
def tierOf (d : ℚ) : Conf :=
  if d < 1 then .high
  else if d < 50 then .medium
  else if d < 200 then .low
  else .very_low

/-- `min_distance` starts at `float('inf')`; `none` models infinity.  The
comparison chain sends infinity to `very_low`. -/
def confOf : Option ℚ → Conf
  | none => .very_low
  | some d => tierOf d

/-- `min_distance > x` where `min_distance` may still be infinity. -/
def infGt (o : Option ℚ) (x : ℚ) : Prop :=
  match o with
  | none => True
  | some d => x < d

instance (o : Option ℚ) (x : ℚ) : Decidable (infGt o x) := by
  unfold infGt
  cases o <;> infer_instance

/-- Mutable state of the per-group loop of `interpolate_forecast`:
collected results, global min distance (`none` = infinity), global max
distance (starts at 0), and the `interpolation_used` flag. -/
structure GroupAcc where
  results : List Rec := []
  mind : Option ℚ := none
  maxd : ℚ := 0
  used : Bool := false
deriving DecidableEq, Repr

/-- The spread-warning condition (line 296):
`len(interpolated_results) > 0 and max_distance > 200 and (max_distance - min_distance) > 100`
(with `min_distance` possibly infinity, in which case the arithmetic
comparison is false). -/
def spreadCond (acc : GroupAcc) : Prop :=
  acc.results ≠ [] ∧ 200 < acc.maxd ∧
    match acc.mind with
    | none => False
    | some m => 100 < acc.maxd - m

instance (acc : GroupAcc) : Decidable (spreadCond acc) := by
  unfold spreadCond
  cases h : acc.mind <;> exact instDecidableAnd

/-- The warning block of `interpolate_forecast` (lines 281-300). -/
def warnOf (maxd : ℚ) (acc : GroupAcc) : List Warning :=
  (if infGt acc.mind maxd then [Warning.extreme]
   else if infGt acc.mind 300 then [Warning.large]
   else []) ++
  (if spreadCond acc then [Warning.spread] else [])

/-- Grouping dict `grouped[(timestamp, parameter)]`: insertion order of
first key occurrence, append within a group. -/
def addToGroups : List ((String × String) × List Rec) → (String × String) → Rec →
    List ((String × String) × List Rec)
  | [], k, r => [(k, [r])]
  | (k0, l) :: gs, k, r =>
    if k0 = k then (k0, l ++ [r]) :: gs
    else (k0, l) :: addToGroups gs k r

/-- The grouping loop of `interpolate_forecast` (lines 221-226); reading
`record['forecast_timestamp']` / `record['parameter']` raises `KeyError`
when absent. -/
def group_records : List Rec → List ((String × String) × List Rec) →
    Except String (List ((String × String) × List Rec))
  | [], gs => .ok gs
  | r :: rs, gs => do
    let ts ← keyS r.forecast_timestamp
    let p ← keyS r.parameter
    group_records rs (addToGroups gs (ts, p) r)

/-- The body of the per-group loop of `interpolate_forecast`
(lines 234-259): select nearest points, update the global min/max
distances, and append either the exact-match copy or the IDW result. -/
def processGroup (dist : DistFn) (t : ℚ × ℚ) (n : ℕ) (acc : GroupAcc)
    (g : List Rec) : Except String GroupAcc := do
  let (pts, isExact) ← find_nearest_points dist t g n (1/100)
  match pts with
  | [] => .ok acc
  | p0 :: prest => do
    let d0 ← keyQ p0.distance_km
    let drest ← prest.mapM (fun p => keyQ p.distance_km)
    let dmin := drest.foldl min d0
    let dmax := drest.foldl max d0
    let mind := some (match acc.mind with | none => dmin | some m => min m dmin)
    let maxd := max acc.maxd dmax
    if isExact then
      .ok { results := acc.results ++
              [{ p0 with interpolation_method := some "exact_match" }],
            mind := mind, maxd := maxd, used := acc.used }
    else do
      let r ← inverse_distance_weighting dist t.1 t.2 (p0 :: prest) 2
      .ok { results := acc.results ++ [r], mind := mind, maxd := maxd, used := true }

/-- The full per-group loop over the grouped records. -/
def processGroups (dist : DistFn) (t : ℚ × ℚ) (n : ℕ) :
    GroupAcc → List ((String × String) × List Rec) → Except String GroupAcc
  | acc, [] => .ok acc
  | acc, g :: gs => do
    let acc1 ← processGroup dist t n acc g.2
    processGroups dist t n acc1 gs

/-- The structured return value of `interpolate_forecast`.  The source
returns a nested dict; the metadata keys are flattened here.  The source
rounds the two reported distances to 2 decimals for display; they are
stored unrounded here (no claim mentions the rounded display values).  In
the no-data branch the source's dict omits the distance/warning keys;
those fields hold their defaults in that case. -/
structure IResult where
  success : Bool
  error : Option String := none
  interpolated_data : List Rec := []
  interpolation_used : Bool := false
  confidence : Conf
  nearest_distance_km : Option ℚ := none
  furthest_distance_km : ℚ := 0
  n_points_used : ℕ := 0
  total_records_interpolated : ℕ := 0
  warnings : List Warning := []
deriving DecidableEq, Repr

/-- The no-data return value (lines 209-218). -/
def emptyResult : IResult :=
  { success := false
    error := some "No forecast data available"
    confidence := .cnone }

/-- Assembly of the successful return value from the loop state
(lines 261-307). -/
def buildResult (n : ℕ) (maxd : ℚ) (acc : GroupAcc) : IResult :=
  { success := true
    interpolated_data := acc.results
    interpolation_used := acc.used
    confidence := confOf acc.mind
    nearest_distance_km := acc.mind
    furthest_distance_km := acc.maxd
    n_points_used := n
    total_records_interpolated := acc.results.length
    warnings := warnOf maxd acc }

/-- Embedding of `interpolate_forecast` (spatial_utils.py, lines 177-307).
Defaults in the source: `n_points = 3`, `max_interpolation_distance = 500.0`. -/
def interpolate_forecast (dist : DistFn) (tlat tlon : ℚ) (all_forecasts : List Rec)
    (n : ℕ) (maxd : ℚ) : Except String IResult :=
  if all_forecasts = [] then .ok emptyResult
  else do
    let gs ← group_records all_forecasts []
    let acc ← processGroups dist (tlat, tlon) n {} gs
    .ok (buildResult n maxd acc)

/-- The IDW average written exactly as the specification states it:
`Σ(w_i * field_i) / Σ(w_i)` with `w_i = 1 / distance_i ^ power`, over all
candidates. -/
def idwAvg (power : ℕ) (cands : List Rec) (f : Rec → Option ℚ) : ℚ :=
  (cands.map (fun r => (1 / dk r ^ power) * (f r).getD 0)).sum /
    (cands.map (fun r => 1 / dk r ^ power)).sum

/-- Rank of a confidence tier, for stating monotonicity (`high` ranks top). -/
def confRank : Conf → ℕ
  | .high => 4
  | .medium => 3
  | .low => 2
  | .very_low => 1
  | .cnone => 0

/-- Degrees-to-radians conversion (`math.radians`). -/
noncomputable def radians (deg : ℝ) : ℝ := deg * Real.pi / 180

/-- Embedding of `haversine_distance` (spatial_utils.py, lines 15-42) over
the reals: the haversine great-circle formula with Earth radius 6371 km.
It is a total function of arbitrary real coordinates, so out-of-range
inputs are accepted without any error path. -/
noncomputable def haversine_distance (lat1 lon1 lat2 lon2 : ℝ) : ℝ :=
  2 * Real.arcsin (Real.sqrt
      (Real.sin ((radians lat2 - radians lat1) / 2) ^ 2 +
        Real.cos (radians lat1) * Real.cos (radians lat2) *
          Real.sin ((radians lon2 - radians lon1) / 2) ^ 2)) * 6371

/-- The stable distance sort performed by `find_nearest_points`, named for
use in specifications: the distance-annotated candidates, position-tagged,
sorted by the lexicographic (distance, position) order. -/
def stableSort (dist : DistFn) (t : ℚ × ℚ) (g : List Rec) : List (ℕ × Rec) :=
  List.insertionSort srel ((g.map (annot0 dist t)).enum)

/-- The keys a record needs for the orchestrator's happy path: the
grouping keys read at line 223 and the coordinates read at line 73. -/
def WFrec (r : Rec) : Prop :=
  r.forecast_timestamp.isSome ∧ r.parameter.isSome ∧ r.lat.isSome ∧ r.lon.isSome

instance (r : Rec) : Decidable (WFrec r) := by
  unfold WFrec
  infer_instance


/-- A trivially computable distance function used to instantiate the
abstract `DistFn` parameter on concrete inputs. -/
def distZero : DistFn := fun _ _ => 0

/-- Concrete records used to evaluate the pipeline on closed inputs. -/
def wrecA : Rec := { distance_km := some 1, forecast_value := some 10 }

def wrecB : Rec := { distance_km := some 2, forecast_value := some 20 }

def wrecC : Rec := { lat := some 0, lon := some 1, forecast_value := some 1 }

def wrecD : Rec := { lat := some 0, lon := some 2, forecast_value := some 2 }

def wrecE : Rec := { distance_km := some 1, forecast_value := some 7 }

def wrecF : Rec := { distance_km := some (1/2000), forecast_value := some 9 }

/-- A record carrying every key the orchestrator's happy path reads. -/
def wrecGood : Rec :=
  { lat := some 0, lon := some 0, forecast_timestamp := some "2024-01-01 00:00",
    parameter := some "T2M", forecast_value := some 10 }

/-- A record missing the grouping keys (`forecast_timestamp`, `parameter`). -/
def wrecBad : Rec := { lat := some 0, lon := some 0 }

/-- The record built by the `idw` branch of `inverse_distance_weighting`
on a nonempty candidate list, spelling out the weights and distances the
no-short-circuit path computes. -/
def idwOut (tlat tlon : ℚ) (power : ℕ) : List Rec → Rec
  | [] => Rec.empty
  | c0 :: ctail =>
    { Rec.empty with
      lat := some tlat
      lon := some tlon
      interpolation_method := some "idw"
      n_points_used := some (((c0 :: ctail).length : ℕ) : ℚ)
      distances_km := some ((c0 :: ctail).map dk)
      forecast_value := idwField ((c0 :: ctail).map (fun r => 1 / dk r ^ power))
        (((c0 :: ctail).map (fun r => 1 / dk r ^ power)).sum) (c0 :: ctail)
        Rec.forecast_value
      prediction_interval_lower :=
        idwField ((c0 :: ctail).map (fun r => 1 / dk r ^ power))
        (((c0 :: ctail).map (fun r => 1 / dk r ^ power)).sum) (c0 :: ctail)
        Rec.prediction_interval_lower
      prediction_interval_upper :=
        idwField ((c0 :: ctail).map (fun r => 1 / dk r ^ power))
        (((c0 :: ctail).map (fun r => 1 / dk r ^ power)).sum) (c0 :: ctail)
        Rec.prediction_interval_upper
      standard_error := idwField ((c0 :: ctail).map (fun r => 1 / dk r ^ power))
        (((c0 :: ctail).map (fun r => 1 / dk r ^ power)).sum) (c0 :: ctail)
        Rec.standard_error
      confidence_level := idwField ((c0 :: ctail).map (fun r => 1 / dk r ^ power))
        (((c0 :: ctail).map (fun r => 1 / dk r ^ power)).sum) (c0 :: ctail)
        Rec.confidence_level
      forecast_timestamp := c0.forecast_timestamp
      parameter := c0.parameter
      forecast_date := c0.forecast_date
      forecast_hour := c0.forecast_hour
      day_of_week := c0.day_of_week
      day_name := c0.day_name }

/-! ### Reduction helpers for the `Except` embedding -/

theorem ok_bind {α β : Type} (a : α) (f : α → Except String β) :
    (Except.ok a >>= f) = f a := rfl

theorem error_bind {α β : Type} (e : String) (f : α → Except String β) :
    ((Except.error e : Except String α) >>= f) = .error e := rfl

theorem mem_enumFrom_snd {α : Type} :
    ∀ (l : List α) (n : ℕ) (p : ℕ × α), p ∈ l.enumFrom n → p.2 ∈ l
  | [], _, _, h => by simp [List.enumFrom] at h
  | a :: l, n, p, h => by
    simp only [List.enumFrom, List.mem_cons] at h
    rcases h with rfl | h
    · exact List.mem_cons_self _ _
    · exact List.mem_cons_of_mem _ (mem_enumFrom_snd l (n + 1) p h)

theorem mem_enum_snd {α : Type} (l : List α) (p : ℕ × α) (h : p ∈ l.enum) :
    p.2 ∈ l :=
  mem_enumFrom_snd l 0 p h

theorem annotate_ok (dist : DistFn) (t : ℚ × ℚ) (r : Rec)
    (h1 : r.lat.isSome) (h2 : r.lon.isSome) :
    annotate dist t r = .ok (annot0 dist t r) := by
  obtain ⟨la, hla⟩ := Option.isSome_iff_exists.mp h1
  obtain ⟨lo, hlo⟩ := Option.isSome_iff_exists.mp h2
  simp [annotate, annot0, keyQ, hla, hlo, ok_bind]

theorem mapM_annotate (dist : DistFn) (t : ℚ × ℚ) :
    ∀ l : List Rec, (∀ r ∈ l, r.lat.isSome ∧ r.lon.isSome) →
      l.mapM (annotate dist t) = .ok (l.map (annot0 dist t))
  | [], _ => by rw [List.mapM_nil]; rfl
  | r :: l, h => by
    have h1 := h r (List.mem_cons_self r l)
    rw [List.mapM_cons, annotate_ok dist t r h1.1 h1.2, ok_bind,
      mapM_annotate dist t l (fun x hx => h x (List.mem_cons_of_mem _ hx)), ok_bind]
    rfl

theorem mapM_keyQ :
    ∀ l : List Rec, (∀ r ∈ l, r.distance_km.isSome) →
      l.mapM (fun r => keyQ r.distance_km) = .ok (l.map dk)
  | [], _ => by rw [List.mapM_nil]; rfl
  | r :: l, h => by
    obtain ⟨d, hd⟩ := Option.isSome_iff_exists.mp (h r (List.mem_cons_self r l))
    rw [List.mapM_cons, show keyQ r.distance_km = .ok d by rw [hd]; rfl, ok_bind,
      mapM_keyQ l (fun x hx => h x (List.mem_cons_of_mem _ hx)), ok_bind,
      List.map_cons, show dk r = d from by simp [dk, hd]]
    rfl

/-! ### Characterisation of the nearest-point selector -/

theorem stableSort_perm (dist : DistFn) (t : ℚ × ℚ) (g : List Rec) :
    (stableSort dist t g).Perm ((g.map (annot0 dist t)).enum) :=
  List.perm_insertionSort _ _

theorem stableSort_sorted (dist : DistFn) (t : ℚ × ℚ) (g : List Rec) :
    List.Sorted srel (stableSort dist t g) :=
  List.sorted_insertionSort _ _

theorem stableSort_length (dist : DistFn) (t : ℚ × ℚ) (g : List Rec) :
    (stableSort dist t g).length = g.length := by
  rw [(stableSort_perm dist t g).length_eq, List.enum_length, List.length_map]

theorem mem_stableSort_distance {dist : DistFn} {t : ℚ × ℚ} {g : List Rec}
    {q : ℕ × Rec} (hq : q ∈ stableSort dist t g) :
    ∃ v, q.2.distance_km = some v := by
  have h1 : q ∈ (g.map (annot0 dist t)).enum :=
    (stableSort_perm dist t g).mem_iff.mp hq
  have h2 := mem_enum_snd _ _ h1
  obtain ⟨r, _, hr⟩ := List.mem_map.mp h2
  exact ⟨_, by rw [← hr]; rfl⟩

theorem fnp_spec (dist : DistFn) (t : ℚ × ℚ) (g : List Rec) (n : ℕ) (thr : ℚ)
    (hwf : ∀ r ∈ g, r.lat.isSome ∧ r.lon.isSome) :
    ∃ ex : Bool,
      find_nearest_points dist t g n thr =
        .ok (((stableSort dist t g).map Prod.snd).take n, ex) ∧
      (∀ q0 qs, stableSort dist t g = q0 :: qs → (ex = true ↔ dk q0.2 < thr)) ∧
      (stableSort dist t g = [] → ex = false) := by
  by_cases hg : g = []
  · subst hg
    refine ⟨false, by simp [find_nearest_points, stableSort], ?_, fun _ => rfl⟩
    intro q0 qs h
    simp [stableSort] at h
  · have hlen : (stableSort dist t g).length ≠ 0 := by
      rw [stableSort_length]
      exact fun h => hg (List.length_eq_zero.mp h)
    have hne : stableSort dist t g ≠ [] := fun h => hlen (by rw [h]; rfl)
    obtain ⟨q0, qs, hq⟩ := List.exists_cons_of_ne_nil hne
    obtain ⟨v, hv⟩ := mem_stableSort_distance (hq ▸ List.mem_cons_self q0 qs)
    have hred : keyQ q0.2.distance_km = .ok v := by rw [hv]; rfl
    refine ⟨decide (v < thr), ?_, ?_, ?_⟩
    · simp only [find_nearest_points, if_neg hg]
      rw [mapM_annotate dist t g hwf, ok_bind]
      have hmap : (List.insertionSort srel ((g.map (annot0 dist t)).enum)).map Prod.snd
          = q0.2 :: qs.map Prod.snd := by
        show (stableSort dist t g).map Prod.snd = _
        rw [hq]; rfl
      rw [hmap, show (stableSort dist t g).map Prod.snd = q0.2 :: qs.map Prod.snd
            from by rw [hq]; rfl]
      exact show
        (do
          let d0 ← keyQ q0.2.distance_km
          Except.ok ((q0.2 :: qs.map Prod.snd).take n, decide (d0 < thr))) =
        Except.ok ((q0.2 :: qs.map Prod.snd).take n, decide (v < thr))
        from by rw [hred]; rfl
    · intro q0' qs' h'
      rw [hq] at h'
      injection h' with h1 _
      subst h1
      simp [dk, hv]
    · intro h
      rw [hq] at h
      exact absurd h (List.cons_ne_nil _ _)

theorem fnp_take_distance {dist : DistFn} {t : ℚ × ℚ} {g : List Rec} {n : ℕ}
    {p : Rec} (hp : p ∈ (((stableSort dist t g).map Prod.snd).take n)) :
    ∃ v, p.distance_km = some v := by
  have h1 := List.take_subset n _ hp
  obtain ⟨q, hq, rfl⟩ := List.mem_map.mp h1
  exact mem_stableSort_distance hq

theorem fnp_take_length (dist : DistFn) (t : ℚ × ℚ) (g : List Rec) (n : ℕ) :
    ((((stableSort dist t g).map Prod.snd)).take n).length = min n g.length := by
  simp [List.length_take, stableSort_length]

/-! ### Characterisation of the weighted interpolator -/

theorem getDistOf_eq {dist : DistFn} {t : ℚ × ℚ} {r : Rec} {d : ℚ}
    (hd : r.distance_km = some d) : getDistOf dist t r = .ok d := by
  simp [getDistOf, hd]

theorem idwWeights_all (dist : DistFn) (t : ℚ × ℚ) (pw : ℕ) :
    ∀ l : List Rec, (∀ r ∈ l, ∃ d, r.distance_km = some d ∧ 1/1000 ≤ d) →
      idwWeights dist t pw l = .ok (Sum.inr (l.map (fun r => 1 / dk r ^ pw)))
  | [], _ => rfl
  | r :: l, h => by
    obtain ⟨d, hd, hge⟩ := h r (List.mem_cons_self r l)
    have hdk : dk r = d := by simp [dk, hd]
    simp only [idwWeights]
    rw [getDistOf_eq hd, ok_bind, if_neg (not_lt.mpr hge),
      idwWeights_all dist t pw l (fun x hx => h x (List.mem_cons_of_mem _ hx)),
      ok_bind, List.map_cons, hdk]

theorem idwWeights_ok (dist : DistFn) (t : ℚ × ℚ) (pw : ℕ) :
    ∀ l : List Rec, (∀ r ∈ l, r.distance_km.isSome) →
      ∃ out, idwWeights dist t pw l = .ok out
  | [], _ => ⟨.inr [], rfl⟩
  | r :: l, h => by
    obtain ⟨d, hd⟩ := Option.isSome_iff_exists.mp (h r (List.mem_cons_self r l))
    simp only [idwWeights]
    rw [getDistOf_eq hd, ok_bind]
    by_cases hlt : d < 1/1000
    · rw [if_pos hlt]
      exact ⟨_, rfl⟩
    · rw [if_neg hlt]
      obtain ⟨out, hout⟩ :=
        idwWeights_ok dist t pw l (fun x hx => h x (List.mem_cons_of_mem _ hx))
      rw [hout, ok_bind]
      cases out with
      | inl rc => exact ⟨.inl rc, rfl⟩
      | inr ws => exact ⟨.inr (1 / d ^ pw :: ws), rfl⟩

theorem idwWeights_find (dist : DistFn) (t : ℚ × ℚ) (pw : ℕ) :
    ∀ l : List Rec, (∀ r ∈ l, r.distance_km.isSome) →
      (∃ r ∈ l, dk r < 1/1000) →
      ∃ r0, l.find? (fun r => decide (dk r < 1/1000)) = some r0 ∧
        idwWeights dist t pw l =
          .ok (Sum.inl { r0 with interpolation_method := some "exact_match" })
  | [], _, hex => absurd hex (by simp)
  | r :: l, h, hex => by
    obtain ⟨d, hd⟩ := Option.isSome_iff_exists.mp (h r (List.mem_cons_self r l))
    have hdk : dk r = d := by simp [dk, hd]
    simp only [idwWeights]
    rw [getDistOf_eq hd, ok_bind]
    by_cases hlt : d < 1/1000
    · have hp : decide (dk r < 1/1000) = true := by
        rw [hdk]; exact decide_eq_true hlt
      refine ⟨r, ?_, by rw [if_pos hlt]⟩
      rw [List.find?_cons, hp]
    · have hp : decide (dk r < 1/1000) = false := by
        rw [hdk]; exact decide_eq_false hlt
      have hex' : ∃ x ∈ l, dk x < 1/1000 := by
        obtain ⟨x, hx, hxlt⟩ := hex
        rcases List.mem_cons.mp hx with rfl | hx'
        · exact absurd (hdk ▸ hxlt) hlt
        · exact ⟨x, hx', hxlt⟩
      obtain ⟨r0, hfind, heq⟩ :=
        idwWeights_find dist t pw l (fun x hx => h x (List.mem_cons_of_mem _ hx)) hex'
      refine ⟨r0, ?_, ?_⟩
      · rw [List.find?_cons, hp]
        exact hfind
      · rw [if_neg hlt, heq, ok_bind]

theorem idw_ok (dist : DistFn) (a b : ℚ) (pw : ℕ) (pts : List Rec)
    (h : ∀ p ∈ pts, p.distance_km.isSome) :
    ∃ r, inverse_distance_weighting dist a b pts pw = .ok r := by
  match pts with
  | [] => exact ⟨Rec.empty, rfl⟩
  | [r] => exact ⟨_, rfl⟩
  | r0 :: r1 :: rest =>
    obtain ⟨out, hout⟩ := idwWeights_ok dist (a, b) pw (r0 :: r1 :: rest) h
    simp only [inverse_distance_weighting]
    rw [hout, ok_bind]
    cases out with
    | inl rc => exact ⟨rc, rfl⟩
    | inr ws =>
      rw [mapM_keyQ _ h]
      exact ⟨_, rfl⟩

theorem zipWith_map_self {α β : Type} (g : α → β) (h : β → α → β) :
    ∀ l : List α, List.zipWith h (l.map g) l = l.map (fun a => h (g a) a)
  | [] => rfl
  | a :: l => by
    rw [List.map_cons, List.zipWith_cons_cons, zipWith_map_self g h l, List.map_cons]

theorem idwField_eq (pw : ℕ) (c0 : Rec) (ctail : List Rec) (f : Rec → Option ℚ)
    (hf : (f c0).isSome) :
    idwField ((c0 :: ctail).map (fun r => 1 / dk r ^ pw))
      (((c0 :: ctail).map (fun r => 1 / dk r ^ pw)).sum) (c0 :: ctail) f =
    some (idwAvg pw (c0 :: ctail) f) := by
  obtain ⟨v, hv⟩ := Option.isSome_iff_exists.mp hf
  simp only [idwField, hv]
  rw [zipWith_map_self (fun r => 1 / dk r ^ pw) (fun w r => w * (f r).getD 0)]
  rfl

/-! ### Characterisation of the orchestrator pipeline -/

theorem addToGroups_ne_nil :
    ∀ (gs : List ((String × String) × List Rec)) (k : String × String) (r : Rec),
      addToGroups gs k r ≠ []
  | [], _, _ => by simp [addToGroups]
  | (k0, l) :: gs, k, r => by
    simp only [addToGroups]
    split <;> simp

theorem addToGroups_inv {P : Rec → Prop} :
    ∀ (gs : List ((String × String) × List Rec)) (k : String × String) (r : Rec),
      (∀ g ∈ gs, g.2 ≠ [] ∧ ∀ x ∈ g.2, P x) → P r →
      ∀ g ∈ addToGroups gs k r, g.2 ≠ [] ∧ ∀ x ∈ g.2, P x
  | [], k, r, _, hr => by
    intro g hg
    simp only [addToGroups, List.mem_singleton] at hg
    subst hg
    refine ⟨by simp, ?_⟩
    intro x hx
    simp only [List.mem_singleton] at hx
    subst hx
    exact hr
  | (k0, l) :: gs, k, r, hgs, hr => by
    intro g hg
    simp only [addToGroups] at hg
    split at hg
    · rcases List.mem_cons.mp hg with rfl | hg'
      · refine ⟨by simp, ?_⟩
        intro x hx
        rcases List.mem_append.mp hx with hx' | hx'
        · exact (hgs _ (List.mem_cons_self _ _)).2 x hx'
        · simp only [List.mem_singleton] at hx'
          subst hx'
          exact hr
      · exact hgs g (List.mem_cons_of_mem _ hg')
    · rcases List.mem_cons.mp hg with rfl | hg'
      · exact hgs _ (List.mem_cons_self _ _)
      · exact addToGroups_inv gs k r
          (fun g' hg'' => hgs g' (List.mem_cons_of_mem _ hg'')) hr g hg'

theorem group_records_ok {P : Rec → Prop} :
    ∀ (l : List Rec) (gs0 : List ((String × String) × List Rec)),
      (∀ r ∈ l, r.forecast_timestamp.isSome ∧ r.parameter.isSome) →
      (∀ r ∈ l, P r) →
      (∀ g ∈ gs0, g.2 ≠ [] ∧ ∀ x ∈ g.2, P x) →
      ∃ gs, group_records l gs0 = .ok gs ∧
        (∀ g ∈ gs, g.2 ≠ [] ∧ ∀ x ∈ g.2, P x) ∧
        ((gs0 ≠ [] ∨ l ≠ []) → gs ≠ [])
  | [], gs0, _, _, hg => by
    refine ⟨gs0, rfl, hg, ?_⟩
    rintro (h | h)
    · exact h
    · exact absurd rfl h
  | r :: l, gs0, hk, hP, hg => by
    obtain ⟨ts, hts⟩ := Option.isSome_iff_exists.mp (hk r (List.mem_cons_self r l)).1
    obtain ⟨pp, hpp⟩ := Option.isSome_iff_exists.mp (hk r (List.mem_cons_self r l)).2
    simp only [group_records]
    rw [show keyS r.forecast_timestamp = .ok ts from by rw [hts]; rfl, ok_bind,
      show keyS r.parameter = .ok pp from by rw [hpp]; rfl, ok_bind]
    obtain ⟨gs, hgs, hinv, hne⟩ :=
      group_records_ok l (addToGroups gs0 (ts, pp) r)
        (fun x hx => hk x (List.mem_cons_of_mem _ hx))
        (fun x hx => hP x (List.mem_cons_of_mem _ hx))
        (addToGroups_inv gs0 (ts, pp) r hg (hP r (List.mem_cons_self r l)))
    exact ⟨gs, hgs, hinv, fun _ => hne (Or.inl (addToGroups_ne_nil gs0 _ r))⟩

theorem processGroup_ok (dist : DistFn) (t : ℚ × ℚ) (n : ℕ) (acc : GroupAcc)
    (g : List Rec) (hg : ∀ r ∈ g, r.lat.isSome ∧ r.lon.isSome) :
    ∃ acc2, processGroup dist t n acc g = .ok acc2 ∧
      (acc.mind.isSome → acc2.mind.isSome) ∧
      (g ≠ [] → 0 < n → acc2.mind.isSome) := by
  obtain ⟨ex, hfnp, _, _⟩ := fnp_spec dist t g n (1/100) hg
  simp only [processGroup]
  rw [hfnp, ok_bind]
  cases hpts : ((stableSort dist t g).map Prod.snd).take n with
  | nil =>
    refine ⟨acc, rfl, fun h => h, ?_⟩
    intro hgne hn
    have hlen := fnp_take_length dist t g n
    rw [hpts] at hlen
    have : 0 < min n g.length :=
      lt_min hn (List.length_pos.mpr hgne)
    rw [← hlen] at this
    exact absurd this (by simp)
  | cons p0 prest =>
    dsimp only
    obtain ⟨v0, hv0⟩ := @fnp_take_distance dist t g n p0
      (hpts ▸ List.mem_cons_self p0 prest)
    rw [show keyQ p0.distance_km = .ok v0 from by rw [hv0]; rfl, ok_bind]
    have hall : ∀ p ∈ prest, p.distance_km.isSome := by
      intro p hp
      have hmem : p ∈ ((stableSort dist t g).map Prod.snd).take n := by
        rw [hpts]
        exact List.mem_cons_of_mem _ hp
      obtain ⟨v, hv⟩ := fnp_take_distance hmem
      simp [hv]
    rw [mapM_keyQ prest hall, ok_bind]
    cases ex with
    | true => exact ⟨_, rfl, fun _ => rfl, fun _ _ => rfl⟩
    | false =>
      have hall2 : ∀ p ∈ p0 :: prest, p.distance_km.isSome := by
        intro p hp
        rcases List.mem_cons.mp hp with rfl | hp'
        · simp [hv0]
        · exact hall p hp'
      obtain ⟨rr, hrr⟩ := idw_ok dist t.1 t.2 2 (p0 :: prest) hall2
      rw [if_neg (by simp), hrr]
      exact ⟨_, rfl, fun _ => rfl, fun _ _ => rfl⟩

theorem processGroups_ok (dist : DistFn) (t : ℚ × ℚ) (n : ℕ) :
    ∀ (gs : List ((String × String) × List Rec)) (acc : GroupAcc),
      (∀ g ∈ gs, ∀ r ∈ g.2, r.lat.isSome ∧ r.lon.isSome) →
      ∃ acc2, processGroups dist t n acc gs = .ok acc2 ∧
        (acc.mind.isSome → acc2.mind.isSome) ∧
        ((∃ g ∈ gs, g.2 ≠ []) → 0 < n → acc2.mind.isSome)
  | [], acc, _ => by
    refine ⟨acc, rfl, id, ?_⟩
    rintro ⟨g, hg, _⟩ _
    cases hg
  | g :: gs, acc, h => by
    obtain ⟨acc1, h1, hpres1, hne1⟩ :=
      processGroup_ok dist t n acc g.2 (h g (List.mem_cons_self g gs))
    obtain ⟨acc2, h2, hpres2, hne2⟩ :=
      processGroups_ok dist t n gs acc1
        (fun g' hg' => h g' (List.mem_cons_of_mem _ hg'))
    refine ⟨acc2, ?_, fun hs => hpres2 (hpres1 hs), ?_⟩
    · simp only [processGroups]
      rw [h1, ok_bind, h2]
    · rintro ⟨g', hg', hgne⟩ hn
      rcases List.mem_cons.mp hg' with rfl | hg''
      · exact hpres2 (hne1 hgne hn)
      · exact hne2 ⟨g', hg'', hgne⟩ hn

theorem interpolate_ok (dist : DistFn) (tlat tlon : ℚ) (all_fc : List Rec)
    (n : ℕ) (maxd : ℚ) (hwf : ∀ r ∈ all_fc, WFrec r) (hne : all_fc ≠ [])
    (hn : 0 < n) :
    ∃ gs acc m,
      group_records all_fc [] = .ok gs ∧
      processGroups dist (tlat, tlon) n {} gs = .ok acc ∧
      acc.mind = some m ∧
      interpolate_forecast dist tlat tlon all_fc n maxd =
        .ok (buildResult n maxd acc) := by
  obtain ⟨gs, hgs, hinv, hgne⟩ :=
    group_records_ok (P := WFrec) all_fc []
      (fun r hr => ⟨(hwf r hr).1, (hwf r hr).2.1⟩) hwf (by simp)
  have hlatlon : ∀ g ∈ gs, ∀ r ∈ g.2, r.lat.isSome ∧ r.lon.isSome :=
    fun g hg r hr => ⟨((hinv g hg).2 r hr).2.2.1, ((hinv g hg).2 r hr).2.2.2⟩
  obtain ⟨acc, hacc, _, hmind⟩ := processGroups_ok dist (tlat, tlon) n gs {} hlatlon
  have hgsne : gs ≠ [] := hgne (Or.inr hne)
  obtain ⟨g0, hg0⟩ := List.exists_mem_of_ne_nil gs hgsne
  have hsome : acc.mind.isSome := hmind ⟨g0, hg0, (hinv g0 hg0).1⟩ hn
  obtain ⟨m, hm⟩ := Option.isSome_iff_exists.mp hsome
  refine ⟨gs, acc, m, hgs, hacc, hm, ?_⟩
  simp only [interpolate_forecast, if_neg hne]
  rw [hgs, ok_bind, hacc, ok_bind]

/-! ### The haversine distance -/

theorem sin_sq_swap (u v : ℝ) :
    Real.sin ((u - v) / 2) ^ 2 = Real.sin ((v - u) / 2) ^ 2 := by
  rw [show (u - v) / 2 = -((v - u) / 2) by ring, Real.sin_neg]
  ring

theorem haversine_comm (lat1 lon1 lat2 lon2 : ℝ) :
    haversine_distance lat1 lon1 lat2 lon2 = haversine_distance lat2 lon2 lat1 lon1 := by
  unfold haversine_distance
  rw [sin_sq_swap (radians lat2) (radians lat1),
    sin_sq_swap (radians lon2) (radians lon1),
    mul_comm (Real.cos (radians lat1)) (Real.cos (radians lat2))]

theorem haversine_self (lat lon : ℝ) :
    haversine_distance lat lon lat lon = 0 := by
  unfold haversine_distance
  simp [sub_self, Real.sin_zero, Real.sqrt_zero, Real.arcsin_zero]

/-! ### Warning membership -/

theorem extreme_mem (maxd : ℚ) (acc : GroupAcc) :
    Warning.extreme ∈ warnOf maxd acc ↔ infGt acc.mind maxd := by
  unfold warnOf
  by_cases h1 : infGt acc.mind maxd
  · simp [h1]
  · by_cases h2 : infGt acc.mind 300 <;> by_cases h3 : spreadCond acc <;>
      simp [h1, h2, h3]

theorem large_mem (maxd : ℚ) (acc : GroupAcc) :
    Warning.large ∈ warnOf maxd acc ↔ (¬ infGt acc.mind maxd ∧ infGt acc.mind 300) := by
  unfold warnOf
  by_cases h1 : infGt acc.mind maxd <;> by_cases h2 : infGt acc.mind 300 <;>
    by_cases h3 : spreadCond acc <;> simp [h1, h2, h3]

theorem spread_mem (maxd : ℚ) (acc : GroupAcc) :
    Warning.spread ∈ warnOf maxd acc ↔ spreadCond acc := by
  unfold warnOf
  by_cases h1 : infGt acc.mind maxd <;> by_cases h2 : infGt acc.mind 300 <;>
    by_cases h3 : spreadCond acc <;> simp [h1, h2, h3]

/-! ### The claims -/

/-- C1: for every call to the weighted interpolator with two or more
candidates, all at distances of at least 0.001 km, the result is tagged
`method = idw` and, for each of the five numeric fields present in the
candidate set, the result's field equals the inverse-distance-weighted
average `Σ(w_i * field_i) / Σ(w_i)` with `w_i = 1 / distance_i ^ power`
over all candidates. -/
theorem idw_weighted_average_c1 (dist : DistFn) (tlat tlon : ℚ) (power : ℕ)
    (cands : List Rec) (h2 : 2 ≤ cands.length)
    (hd : ∀ r ∈ cands, ∃ d, r.distance_km = some d ∧ 1/1000 ≤ d) :
    ∃ out, inverse_distance_weighting dist tlat tlon cands power = .ok out ∧
      out.interpolation_method = some "idw" ∧
      ∀ f ∈ [Rec.forecast_value, Rec.prediction_interval_lower,
          Rec.prediction_interval_upper, Rec.standard_error, Rec.confidence_level],
        (∀ r ∈ cands, (f r).isSome) → f out = some (idwAvg power cands f) := by
  cases cands with
  | nil => exact absurd h2 (by simp)
  | cons r0 tl =>
  cases tl with
  | nil => exact absurd h2 (by simp)
  | cons r1 rest =>
  have hw := idwWeights_all dist (tlat, tlon) power (r0 :: r1 :: rest) hd
  have hdall : ∀ r ∈ r0 :: r1 :: rest, r.distance_km.isSome := by
    intro r hr
    obtain ⟨d, hd', _⟩ := hd r hr
    simp [hd']
  refine ⟨idwOut tlat tlon power (r0 :: r1 :: rest), ?_, rfl, ?_⟩
  · simp only [inverse_distance_weighting]
    rw [hw, ok_bind, mapM_keyQ _ hdall]
    rfl
  · intro f hf hpres
    have hf0 : (f r0).isSome := hpres r0 (List.mem_cons_self _ _)
    simp only [List.mem_cons, List.not_mem_nil, or_false] at hf
    rcases hf with rfl | rfl | rfl | rfl | rfl
    · exact idwField_eq power r0 (r1 :: rest) _ hf0
    · exact idwField_eq power r0 (r1 :: rest) _ hf0
    · exact idwField_eq power r0 (r1 :: rest) _ hf0
    · exact idwField_eq power r0 (r1 :: rest) _ hf0
    · exact idwField_eq power r0 (r1 :: rest) _ hf0

/-- C1 witness: two candidates at distances 1 km and 2 km with values 10
and 20 give an `idw` result whose value is the weighted average 12. -/
theorem idw_weighted_average_c1_witness :
    (2 ≤ ([wrecA, wrecB] : List Rec).length) ∧
    ∃ out, inverse_distance_weighting distZero 0 0 [wrecA, wrecB] 2 = .ok out ∧
      out.interpolation_method = some "idw" ∧
      out.forecast_value = some 12 := by
  refine ⟨by decide, ?_⟩
  obtain ⟨out, h1, h2, h3⟩ :=
    idw_weighted_average_c1 distZero 0 0 2 [wrecA, wrecB] (by decide)
      (by
        intro r hr
        rcases List.mem_cons.mp hr with rfl | hr'
        · exact ⟨1, rfl, by norm_num⟩
        · rcases List.mem_cons.mp hr' with rfl | h
          · exact ⟨2, rfl, by norm_num⟩
          · cases h)
  refine ⟨out, h1, h2, ?_⟩
  rw [h3 Rec.forecast_value (by simp) (by decide)]
  norm_num [idwAvg, wrecA, wrecB, dk]

/-- C5: with two or more candidates, a candidate at distance strictly
below 0.001 km makes the interpolator short-circuit: it returns that
(first such) candidate verbatim, tagged `method = exact_match`, ignoring
all other candidates, and this case is an `ok` result, never an error. -/
theorem exact_short_circuit_c5 (dist : DistFn) (tlat tlon : ℚ) (power : ℕ)
    (cands : List Rec) (h2 : 2 ≤ cands.length)
    (hd : ∀ r ∈ cands, r.distance_km.isSome)
    (hex : ∃ r ∈ cands, dk r < 1/1000) :
    ∃ r0, cands.find? (fun r => decide (dk r < 1/1000)) = some r0 ∧
      inverse_distance_weighting dist tlat tlon cands power =
        .ok { r0 with interpolation_method := some "exact_match" } := by
  cases cands with
  | nil => exact absurd h2 (by simp)
  | cons a tl =>
  cases tl with
  | nil => exact absurd h2 (by simp)
  | cons b rest =>
  obtain ⟨r0, hfind, heq⟩ :=
    idwWeights_find dist (tlat, tlon) power (a :: b :: rest) hd hex
  refine ⟨r0, hfind, ?_⟩
  simp only [inverse_distance_weighting]
  rw [heq, ok_bind]

/-- C5 witness: of two candidates at distances 1 km and 0.0005 km, the
interpolator returns the second, tagged `exact_match`. -/
theorem exact_short_circuit_c5_witness :
    (2 ≤ ([wrecE, wrecF] : List Rec).length) ∧
    (∀ r ∈ ([wrecE, wrecF] : List Rec), r.distance_km.isSome) ∧
    (∃ r ∈ ([wrecE, wrecF] : List Rec), dk r < 1/1000) ∧
    ∃ r0, ([wrecE, wrecF] : List Rec).find? (fun r => decide (dk r < 1/1000)) = some r0 ∧
      inverse_distance_weighting distZero 0 0 [wrecE, wrecF] 2 =
        .ok { r0 with interpolation_method := some "exact_match" } := by
  have hex : ∃ r ∈ ([wrecE, wrecF] : List Rec), dk r < 1/1000 :=
    ⟨wrecF, by simp, by norm_num [dk, wrecF]⟩
  exact ⟨by decide, by decide, hex,
    exact_short_circuit_c5 distZero 0 0 2 [wrecE, wrecF] (by decide) (by decide) hex⟩

/-- C6: with exactly one candidate, at any distance, the interpolator does
not raise and returns that candidate with its value copied verbatim,
tagged `method = nearest_point`. -/
theorem single_candidate_c6 (dist : DistFn) (tlat tlon : ℚ) (power : ℕ) (r : Rec) :
    inverse_distance_weighting dist tlat tlon [r] power =
      .ok { r with interpolation_method := some "nearest_point" } ∧
    ({ r with interpolation_method := some "nearest_point" } : Rec).forecast_value
      = r.forecast_value :=
  ⟨rfl, rfl⟩

/-- C10: on the empty candidate list the interpolator does not raise and
returns the empty record: no interpolated fields and no method tag. -/
theorem idw_empty_c10 (dist : DistFn) (tlat tlon : ℚ) (power : ℕ) :
    inverse_distance_weighting dist tlat tlon [] power = .ok Rec.empty ∧
    Rec.empty.interpolation_method = none ∧
    Rec.empty.forecast_value = none ∧
    Rec.empty.prediction_interval_lower = none ∧
    Rec.empty.prediction_interval_upper = none ∧
    Rec.empty.standard_error = none ∧
    Rec.empty.confidence_level = none :=
  ⟨rfl, rfl, rfl, rfl, rfl, rfl, rfl⟩

/-- C4: on the empty record list the orchestrator returns (rather than
raising) a structured result with `succeeded = false`, empty records,
confidence tier `none`, and an explanatory error message. -/
theorem no_data_c4 (dist : DistFn) (tlat tlon : ℚ) (n : ℕ) (maxd : ℚ) :
    interpolate_forecast dist tlat tlon [] n maxd = .ok emptyResult ∧
    emptyResult.success = false ∧
    emptyResult.interpolated_data = [] ∧
    emptyResult.confidence = Conf.cnone ∧
    emptyResult.error = some "No forecast data available" :=
  ⟨rfl, rfl, rfl, rfl, rfl⟩

/-- C9: the haversine distance is symmetric and vanishes on identical
coordinates; being a total function of arbitrary real coordinates, it
accepts out-of-range inputs without any error path. -/
theorem haversine_c9 :
    (∀ lat1 lon1 lat2 lon2 : ℝ,
      haversine_distance lat1 lon1 lat2 lon2 =
        haversine_distance lat2 lon2 lat1 lon1) ∧
    (∀ lat lon : ℝ, haversine_distance lat lon lat lon = 0) :=
  ⟨haversine_comm, haversine_self⟩

/-- C3: the nearest-neighbor selector returns the distance-annotated
candidates sorted ascending by distance with ties broken by input order
(the sorted list is a permutation of the position-tagged candidates that
is sorted under the lexicographic (distance, position) order), truncated
to the first `n` (fewer when the list is shorter); `is_exact` is true iff
the closest candidate's distance is strictly below the threshold; the
empty candidate list yields `([], false)`. -/
theorem find_nearest_c3 (dist : DistFn) (t : ℚ × ℚ) (cands : List Rec)
    (n : ℕ) (thr : ℚ) (hwf : ∀ r ∈ cands, r.lat.isSome ∧ r.lon.isSome) :
    ∃ stable ex,
      find_nearest_points dist t cands n thr =
        .ok ((stable.map Prod.snd).take n, ex) ∧
      stable.Perm ((cands.map (annot0 dist t)).enum) ∧
      stable.Sorted srel ∧
      ((stable.map Prod.snd).take n).length = min n cands.length ∧
      (∀ q0 qs, stable = q0 :: qs → (ex = true ↔ dk q0.2 < thr)) ∧
      (stable = [] → ex = false) ∧
      (cands = [] → find_nearest_points dist t cands n thr = .ok ([], false)) := by
  obtain ⟨ex, h1, h2, h3⟩ := fnp_spec dist t cands n thr hwf
  refine ⟨stableSort dist t cands, ex, h1, stableSort_perm dist t cands,
    stableSort_sorted dist t cands, fnp_take_length dist t cands n, h2, h3, ?_⟩
  intro hc
  subst hc
  rfl

/-- C3 witness: two coordinate-bearing candidates run through the
selector with `n = 2` and the default threshold. -/
theorem find_nearest_c3_witness :
    (∀ r ∈ ([wrecC, wrecD] : List Rec), r.lat.isSome ∧ r.lon.isSome) ∧
    ∃ stable ex,
      find_nearest_points distZero (0, 0) [wrecC, wrecD] 2 (1/100) =
        .ok ((stable.map Prod.snd).take 2, ex) ∧
      stable.Perm ((([wrecC, wrecD] : List Rec).map (annot0 distZero (0, 0))).enum) ∧
      stable.Sorted srel ∧
      ((stable.map Prod.snd).take 2).length = min 2 ([wrecC, wrecD] : List Rec).length ∧
      (∀ q0 qs, stable = q0 :: qs → (ex = true ↔ dk q0.2 < 1/100)) ∧
      (stable = [] → ex = false) ∧
      (([wrecC, wrecD] : List Rec) = [] →
        find_nearest_points distZero (0, 0) [wrecC, wrecD] 2 (1/100) = .ok ([], false)) :=
  ⟨by decide, find_nearest_c3 distZero (0, 0) [wrecC, wrecD] 2 (1/100) (by decide)⟩

/-- C2: for nonempty well-keyed input the orchestrator's confidence tier
is `tierOf` applied to the single global minimum distance observed across
all groups; `tierOf` assigns `high` strictly below 1 km, `medium` on
[1, 50), `low` on [50, 200) and `very_low` at or above 200 km (so the
boundary values 1, 50, 200 go to the tier beginning there), and the tier
is non-increasing in the distance. -/
theorem confidence_tier_c2 (dist : DistFn) (tlat tlon : ℚ) (all_fc : List Rec)
    (n : ℕ) (maxd : ℚ) (hwf : ∀ r ∈ all_fc, WFrec r) (hne : all_fc ≠ [])
    (hn : 0 < n) :
    (∃ gs acc m,
      group_records all_fc [] = .ok gs ∧
      processGroups dist (tlat, tlon) n {} gs = .ok acc ∧
      acc.mind = some m ∧
      interpolate_forecast dist tlat tlon all_fc n maxd =
        .ok (buildResult n maxd acc) ∧
      (buildResult n maxd acc).confidence = tierOf m) ∧
    (∀ d : ℚ, d < 1 → tierOf d = Conf.high) ∧
    (∀ d : ℚ, 1 ≤ d → d < 50 → tierOf d = Conf.medium) ∧
    (∀ d : ℚ, 50 ≤ d → d < 200 → tierOf d = Conf.low) ∧
    (∀ d : ℚ, 200 ≤ d → tierOf d = Conf.very_low) ∧
    tierOf 1 = Conf.medium ∧ tierOf 50 = Conf.low ∧ tierOf 200 = Conf.very_low ∧
    (∀ a b : ℚ, a ≤ b → confRank (tierOf b) ≤ confRank (tierOf a)) := by
  refine ⟨?_, ?_, ?_, ?_, ?_, ?_, ?_, ?_, ?_⟩
  · obtain ⟨gs, acc, m, hgs, hacc, hm, hres⟩ :=
      interpolate_ok dist tlat tlon all_fc n maxd hwf hne hn
    exact ⟨gs, acc, m, hgs, hacc, hm, hres, by simp [buildResult, confOf, hm]⟩
  · intro d h
    simp [tierOf, h]
  · intro d h1 h2
    simp [tierOf, not_lt.mpr h1, h2]
  · intro d h1 h2
    simp [tierOf, not_lt.mpr (by linarith : (1:ℚ) ≤ d), not_lt.mpr h1, h2]
  · intro d h
    simp [tierOf, not_lt.mpr (by linarith : (1:ℚ) ≤ d),
      not_lt.mpr (by linarith : (50:ℚ) ≤ d), not_lt.mpr h]
  · norm_num [tierOf]
  · norm_num [tierOf]
  · norm_num [tierOf]
  · intro a b hab
    unfold tierOf confRank
    split_ifs <;> try norm_num
    all_goals linarith

/-- C2 witness: a single well-keyed record with `n = 3`. -/
theorem confidence_tier_c2_witness :
    (∀ r ∈ ([wrecGood] : List Rec), WFrec r) ∧ (([wrecGood] : List Rec) ≠ []) ∧
    ((0:ℕ) < 3) ∧
    ∃ gs acc m,
      group_records [wrecGood] [] = .ok gs ∧
      processGroups distZero (0, 0) 3 {} gs = .ok acc ∧
      acc.mind = some m ∧
      interpolate_forecast distZero 0 0 [wrecGood] 3 500 =
        .ok (buildResult 3 500 acc) ∧
      (buildResult 3 500 acc).confidence = tierOf m :=
  ⟨by decide, by decide, by decide,
    (confidence_tier_c2 distZero 0 0 [wrecGood] 3 500 (by decide) (by decide)
      (by decide)).1⟩

/-- C7: for nonempty well-keyed input, the orchestrator's warning list
contains the strong (extreme-distance) warning iff the global nearest
distance exceeds `max_distance_km`; the milder large-distance warning iff
it does not exceed `max_distance_km` but exceeds 300 km; and the spread
warning iff the result has at least one record, the global furthest
distance exceeds 200 km, and the furthest-to-nearest spread exceeds
100 km. -/
theorem warnings_c7 (dist : DistFn) (tlat tlon : ℚ) (all_fc : List Rec)
    (n : ℕ) (maxd : ℚ) (hwf : ∀ r ∈ all_fc, WFrec r) (hne : all_fc ≠ [])
    (hn : 0 < n) :
    ∃ gs acc m,
      group_records all_fc [] = .ok gs ∧
      processGroups dist (tlat, tlon) n {} gs = .ok acc ∧
      acc.mind = some m ∧
      interpolate_forecast dist tlat tlon all_fc n maxd =
        .ok (buildResult n maxd acc) ∧
      (Warning.extreme ∈ (buildResult n maxd acc).warnings ↔ maxd < m) ∧
      (Warning.large ∈ (buildResult n maxd acc).warnings ↔ m ≤ maxd ∧ 300 < m) ∧
      (Warning.spread ∈ (buildResult n maxd acc).warnings ↔
        (buildResult n maxd acc).interpolated_data ≠ [] ∧
          200 < acc.maxd ∧ 100 < acc.maxd - m) := by
  obtain ⟨gs, acc, m, hgs, hacc, hm, hres⟩ :=
    interpolate_ok dist tlat tlon all_fc n maxd hwf hne hn
  refine ⟨gs, acc, m, hgs, hacc, hm, hres, ?_, ?_, ?_⟩
  · rw [show (buildResult n maxd acc).warnings = warnOf maxd acc from rfl,
      extreme_mem]
    simp [infGt, hm]
  · rw [show (buildResult n maxd acc).warnings = warnOf maxd acc from rfl,
      large_mem]
    simp [infGt, hm, not_lt]
  · rw [show (buildResult n maxd acc).warnings = warnOf maxd acc from rfl,
      spread_mem]
    show spreadCond acc ↔ acc.results ≠ [] ∧ 200 < acc.maxd ∧ 100 < acc.maxd - m
    rw [spreadCond, hm]

/-- C7 witness: a single well-keyed record with `n = 3` and the default
maximum distance. -/
theorem warnings_c7_witness :
    (∀ r ∈ ([wrecGood] : List Rec), WFrec r) ∧ (([wrecGood] : List Rec) ≠ []) ∧
    ((0:ℕ) < 3) ∧
    ∃ gs acc m,
      group_records [wrecGood] [] = .ok gs ∧
      processGroups distZero (0, 0) 3 {} gs = .ok acc ∧
      acc.mind = some m ∧
      interpolate_forecast distZero 0 0 [wrecGood] 3 500 =
        .ok (buildResult 3 500 acc) ∧
      (Warning.extreme ∈ (buildResult 3 500 acc).warnings ↔ 500 < m) ∧
      (Warning.large ∈ (buildResult 3 500 acc).warnings ↔ m ≤ 500 ∧ 300 < m) ∧
      (Warning.spread ∈ (buildResult 3 500 acc).warnings ↔
        (buildResult 3 500 acc).interpolated_data ≠ [] ∧
          200 < acc.maxd ∧ 100 < acc.maxd - m) :=
  ⟨by decide, by decide, by decide,
    warnings_c7 distZero 0 0 [wrecGood] 3 500 (by decide) (by decide) (by decide)⟩

/-- C8 counterexample: a record list containing a record without the
grouping keys makes the orchestrator raise (a `KeyError`), so the claim
that it never raises and skips malformed records is false as stated. -/
theorem orchestrator_raises_c8_counterexample :
    interpolate_forecast distZero 0 0 [wrecBad] 3 500 = .error "KeyError" := by
  rfl

/-- C8 (amended): for record lists whose records all carry the grouping
and coordinate fields, the orchestrator never raises: it returns a
well-formed structured result (the no-data result on empty input,
`success = true` otherwise), with candidate-less groups skipped. -/
theorem orchestrator_wf_c8 (dist : DistFn) (tlat tlon : ℚ) (all_fc : List Rec)
    (n : ℕ) (maxd : ℚ) (hwf : ∀ r ∈ all_fc, WFrec r) :
    ∃ res, interpolate_forecast dist tlat tlon all_fc n maxd = .ok res ∧
      (all_fc = [] → res = emptyResult) ∧
      (all_fc ≠ [] → res.success = true) := by
  by_cases hne : all_fc = []
  · subst hne
    exact ⟨emptyResult, rfl, fun _ => rfl, fun h => absurd rfl h⟩
  · obtain ⟨gs, hgs, hinv, _⟩ :=
      group_records_ok (P := WFrec) all_fc []
        (fun r hr => ⟨(hwf r hr).1, (hwf r hr).2.1⟩) hwf (by simp)
    obtain ⟨acc, hacc, _, _⟩ :=
      processGroups_ok dist (tlat, tlon) n gs {}
        (fun g hg r hr => ⟨((hinv g hg).2 r hr).2.2.1, ((hinv g hg).2 r hr).2.2.2⟩)
    refine ⟨buildResult n maxd acc, ?_, fun h => absurd h hne, fun _ => rfl⟩
    simp only [interpolate_forecast, if_neg hne]
    rw [hgs, ok_bind, hacc, ok_bind]

/-- C8 (amended) witness: a single fully-keyed record. -/
theorem orchestrator_wf_c8_witness :
    (∀ r ∈ ([wrecGood] : List Rec), WFrec r) ∧
    ∃ res, interpolate_forecast distZero 0 0 [wrecGood] 3 500 = .ok res ∧
      (([wrecGood] : List Rec) = [] → res = emptyResult) ∧
      (([wrecGood] : List Rec) ≠ [] → res.success = true) :=
  ⟨by decide, orchestrator_wf_c8 distZero 0 0 [wrecGood] 3 500 (by decide)⟩
